import Mathlib

/-!
Shallow embedding of the unemployment-analysis pipeline in
`Unemployment_Analysis_with_Python.py`: data loading, filtering,
grouped-mean aggregation, per-region correlation and the Covid-impact
comparison.  Floating-point column values are modelled by exact
rationals; a float result that would be NaN or infinite (mean of an
empty selection, division by zero) is modelled by `none` in
`Val := Option ℚ`.  Calendar dates are encoded as `yyyymmdd` natural
numbers, an encoding that is strictly monotone in the chronological
order used by the script's datetime comparisons.
-/

/-- One row of the loaded table.  `year` and `month` are the derived
columns that `load_data` adds from the parsed date. -/
structure Obs where
  date : Nat
  region : String
  area : String
  rate : ℚ
  employed : ℚ
  participation : ℚ
  year : Nat
  month : Nat
deriving DecidableEq, Repr

/-- A float cell that may be NaN/undefined: `none` models the undefined
result that pandas produces for the mean of an empty selection or a
division whose denominator is zero. -/
abbrev Val := Option ℚ

/-- Subtraction on possibly-undefined floats; NaN propagates. -/
def vsub : Val → Val → Val
  | some a, some b => some (a - b)
  | _, _ => none

/-- Multiplication on possibly-undefined floats; NaN propagates. -/
def vmul : Val → Val → Val
  | some a, some b => some (a * b)
  | _, _ => none

/-- Division on possibly-undefined floats; NaN propagates and a zero
denominator yields an undefined result. -/
def vdiv : Val → Val → Val
  | some a, some b => if b = 0 then none else some (a / b)
  | _, _ => none

/-- The Python comparison `v > 0`: false when `v` is NaN. -/
def vgtZero : Val → Bool
  | some a => decide (0 < a)
  | none => false

/-- Arithmetic mean of a list of rationals (used only on selections
known to be non-empty). -/
def meanQ (l : List ℚ) : ℚ := l.sum / l.length

/-- `Series.mean()`: NaN on an empty selection, else the arithmetic
mean. -/
def meanVal (l : List ℚ) : Val :=
  if l = [] then none else some (meanQ l)

/-- `df[df['Region'].isin(regions)]` (line 154 of the script). -/
def filterRegions (df : List Obs) (regions : List String) : List Obs :=
  df.filter (fun o => o.region ∈ regions)

/-- `df[(df['Date'] >= start) & (df['Date'] <= stop)]`
(lines 166-169): both bounds inclusive. -/
def filterDates (df : List Obs) (start stop : Nat) : List Obs :=
  df.filter (fun o => start ≤ o.date ∧ o.date ≤ stop)

/-- Lines 175-176: the area filter is applied only when the selection
is not `"Both"`. -/
def filterArea (df : List Obs) (area : String) : List Obs :=
  if area ≠ "Both" then df.filter (fun o => o.area = area) else df

/-- The whole filter stage of the regional-analysis section:
region membership, then the inclusive date range, then the area. -/
def filterStage (df : List Obs) (regions : List String) (start stop : Nat)
    (area : String) : List Obs :=
  filterArea (filterDates (filterRegions df regions) start stop) area

/-- Helper for `firstUnique`: keeps the first occurrence of every
element, remembering which were already seen. -/
def firstUniqueAux {α : Type} [DecidableEq α] : List α → List α → List α
  | [], _ => []
  | x :: xs, seen =>
      if x ∈ seen then firstUniqueAux xs seen
      else x :: firstUniqueAux xs (x :: seen)

/-- `Series.unique()`: the distinct values in order of first
occurrence. -/
def firstUnique {α : Type} [DecidableEq α] (l : List α) : List α :=
  firstUniqueAux l []

/-- `df['Region'].unique()`. -/
def uniqueRegions (df : List Obs) : List String :=
  firstUnique (df.map (·.region))

/-- `sorted([str(region) for region in df['Region'].unique()])`
(line 143): the full region list offered by the multiselect. -/
def allRegionsSorted (df : List Obs) : List String :=
  List.insertionSort (· ≤ ·) (uniqueRegions df)

/-- `df['Date'].min()` on a non-empty table. -/
def minDate : List Obs → Nat
  | [] => 0
  | o :: rest => rest.foldl (fun acc x => min acc x.date) o.date

/-- `df['Date'].max()` on a non-empty table. -/
def maxDate : List Obs → Nat
  | [] => 0
  | o :: rest => rest.foldl (fun acc x => max acc x.date) o.date

/-- `view.groupby(key)['Estimated Unemployment Rate (%)'].mean()`:
one row per key value that occurs in the view, keys sorted ascending
(pandas default `sort=True`), value the arithmetic mean of the rate
over the rows with that key. -/
def groupMeanBy {κ : Type} [LinearOrder κ] (df : List Obs) (key : Obs → κ) :
    List (κ × ℚ) :=
  (List.insertionSort (· ≤ ·) ((df.map key).dedup)).map
    (fun k => (k, meanQ ((df.filter (fun o => key o = k)).map (·.rate))))

/-- Grouping by `'Date'` (lines 68, 358). -/
def groupMeanDate (df : List Obs) : List (Nat × ℚ) :=
  groupMeanBy df (·.date)

/-- Fixed Covid windows (lines 276-283): the pre-window filter
`[2019-05-01, 2020-02-29]`, both bounds inclusive. -/
def preCovid (df : List Obs) : List Obs :=
  filterDates df 20190501 20200229

/-- The post-window filter `[2020-03-01, 2020-06-30]`, inclusive. -/
def postCovid (df : List Obs) : List Obs :=
  filterDates df 20200301 20200630

/-- Per-region pre-window mean rate (lines 312, 383). -/
def regionPre (df : List Obs) (r : String) : Val :=
  meanVal (((preCovid df).filter (fun o => o.region = r)).map (·.rate))

/-- Per-region post-window mean rate (lines 313, 384). -/
def regionPost (df : List Obs) (r : String) : Val :=
  meanVal (((postCovid df).filter (fun o => o.region = r)).map (·.rate))

/-- `change = post - pre` (lines 314, 385). -/
def regionChange (df : List Obs) (r : String) : Val :=
  vsub (regionPost df r) (regionPre df r)

/-- `percent = (change / pre) * 100 if pre > 0 else 0` (line 386). -/
def regionPct (df : List Obs) (r : String) : Val :=
  if vgtZero (regionPre df r) then
    vmul (vdiv (regionChange df r) (regionPre df r)) (some 100)
  else some 0

/-- One entry of `region_impact_full` (lines 387-393). -/
structure ImpactRecord where
  region : String
  preRate : Val
  postRate : Val
  absoluteChange : Val
  percentageChange : Val
deriving DecidableEq, Repr

/-- The `region_impact_full` list (lines 381-393), built over
`df['Region'].unique()` in first-occurrence order. -/
def regionImpactFull (df : List Obs) : List ImpactRecord :=
  (uniqueRegions df).map (fun r =>
    ⟨r, regionPre df r, regionPost df r, regionChange df r, regionPct df r⟩)

/-- The `(region, change)` table fed to `idxmax` (lines 310-317). -/
def regionImpacts (df : List Obs) : List (String × Val) :=
  (uniqueRegions df).map (fun r => (r, regionChange df r))

/-- `Series.idxmax()` over labelled possibly-NaN values: NaN entries
are skipped and the first label attaining the maximum is returned. -/
def idxmaxV : List (String × Val) → Option (String × ℚ)
  | [] => none
  | (_, none) :: rest => idxmaxV rest
  | (r, some v) :: rest =>
      match idxmaxV rest with
      | none => some (r, v)
      | some (r', v') => if v < v' then some (r', v') else some (r, v)

/-- `region_impact_df.loc[region_impact_df['Change'].idxmax()]`
(line 318): the "most affected region". -/
def mostAffected (df : List Obs) : Option String :=
  (idxmaxV (regionImpacts df)).map Prod.fst

/-- Overall pre-window mean rate (line 286). -/
def overallPre (df : List Obs) : Val :=
  meanVal ((preCovid df).map (·.rate))

/-- Overall post-window mean rate (line 287). -/
def overallPost (df : List Obs) : Val :=
  meanVal ((postCovid df).map (·.rate))

/-- `percent_change = ((post_covid_avg - pre_covid_avg) / pre_covid_avg)
* 100` (line 288): note the absence of any `pre > 0` guard. -/
def overallPctChange (df : List Obs) : Val :=
  vmul (vdiv (vsub (overallPost df) (overallPre df)) (overallPre df))
    (some 100)

/-- Per-area pre-window mean rate (lines 417, 419). -/
def areaPre (df : List Obs) (a : String) : Val :=
  meanVal (((preCovid df).filter (fun o => o.area = a)).map (·.rate))

/-- Per-area post-window mean rate (lines 418, 420). -/
def areaPost (df : List Obs) (a : String) : Val :=
  meanVal (((postCovid df).filter (fun o => o.area = a)).map (·.rate))

/-- `((post - pre) / pre) * 100 if pre > 0 else 0` per area
(lines 423-424). -/
def areaPctChange (df : List Obs) (a : String) : Val :=
  if vgtZero (areaPre df a) then
    vmul (vdiv (vsub (areaPost df a) (areaPre df a)) (areaPre df a))
      (some 100)
  else some 0

/-! ### Concrete example rows, used by witnesses and counterexamples -/

/-- Example row: region `"A"`, in the pre-Covid window. -/
def rowA1 : Obs := ⟨20190601, "A", "Rural", 10, 100, 40, 2019, 6⟩

/-- Example row: region `"A"`, in the post-Covid window. -/
def rowA2 : Obs := ⟨20200401, "A", "Rural", 15, 90, 40, 2020, 4⟩

/-- Example row: region `"B"`, in the pre-Covid window. -/
def rowB1 : Obs := ⟨20190601, "B", "Rural", 10, 100, 40, 2019, 6⟩

/-- Example row: region `"B"`, in the post-Covid window. -/
def rowB2 : Obs := ⟨20200401, "B", "Rural", 15, 90, 40, 2020, 4⟩

/-- A dataset in which region `"B"` appears before region `"A"` and both
regions have the same pre/post rates, hence the same absolute change. -/
def dfBA : List Obs := [rowB1, rowA1, rowB2, rowA2]

/-- A dataset whose pre-window rates average to exactly zero. -/
def rowZ1 : Obs := ⟨20190601, "Z", "Rural", 0, 100, 40, 2019, 6⟩

/-- A post-window row for the same dataset. -/
def rowZ2 : Obs := ⟨20200401, "Z", "Rural", 5, 90, 40, 2020, 4⟩

/-- A dataset in which the overall pre-Covid mean rate is zero. -/
def dfZ : List Obs := [rowZ1, rowZ2]

/-- Mean of the first coordinates. -/
def fstMean (l : List (ℚ × ℚ)) : ℚ := meanQ (l.map Prod.fst)

/-- Mean of the second coordinates. -/
def sndMean (l : List (ℚ × ℚ)) : ℚ := meanQ (l.map Prod.snd)

/-- Centered cross-product sum `Σ (x - x̄)(y - ȳ)`. -/
def sxy (l : List (ℚ × ℚ)) : ℚ :=
  (l.map (fun p => (p.1 - fstMean l) * (p.2 - sndMean l))).sum

/-- Centered square sum `Σ (x - x̄)²`: zero exactly when the first
variable has zero variance. -/
def sxx (l : List (ℚ × ℚ)) : ℚ :=
  (l.map (fun p => (p.1 - fstMean l) * (p.1 - fstMean l))).sum

/-- Centered square sum `Σ (y - ȳ)²`. -/
def syy (l : List (ℚ × ℚ)) : ℚ :=
  (l.map (fun p => (p.2 - sndMean l) * (p.2 - sndMean l))).sum

/-- `Series.corr` (Pearson, the pandas default): the sample covariance
(denominator `n - 1`) divided by the product of the two sample standard
deviations; NaN — modelled as `none` — when there are fewer than two
observations or either variable has zero variance. -/
noncomputable def corrV (l : List (ℚ × ℚ)) : Option ℝ :=
  if l.length < 2 then none
  else if sxx l = 0 ∨ syy l = 0 then none
  else some (((sxy l / ((l.length : ℚ) - 1) : ℚ) : ℝ)
    / (Real.sqrt ((sxx l / ((l.length : ℚ) - 1) : ℚ) : ℝ)
      * Real.sqrt ((syy l / ((l.length : ℚ) - 1) : ℚ) : ℝ)))

/-- The textbook Pearson sample correlation
`Σ(x-x̄)(y-ȳ) / sqrt(Σ(x-x̄)² · Σ(y-ȳ)²)`. -/
noncomputable def pearsonR (l : List (ℚ × ℚ)) : ℝ :=
  ((sxy l : ℚ) : ℝ) / Real.sqrt (((sxx l : ℚ) : ℝ) * ((syy l : ℚ) : ℝ))

/-- The paired column values of a view. -/
def pairsOf (df : List Obs) (f g : Obs → ℚ) : List (ℚ × ℚ) :=
  df.map (fun o => (f o, g o))

/-- The per-region paired columns
(`region_df = filtered_df[filtered_df['Region'] == region]`, line 229). -/
def regionPairs (df : List Obs) (r : String) (f g : Obs → ℚ) :
    List (ℚ × ℚ) :=
  pairsOf (df.filter (fun o => o.region = r)) f g

/-- `region_df[col1].corr(region_df[col2])` (lines 232-233). -/
noncomputable def regionCorr (df : List Obs) (r : String) (f g : Obs → ℚ) :
    Option ℝ :=
  corrV (regionPairs df r f g)

/-- Whitespace recognized by Python `str.strip()`. -/
def isSpaceC (c : Char) : Bool := c = ' ' ∨ c = '\t' ∨ c = '\n' ∨ c = '\r'

/-- `str.strip()`: drop leading and trailing whitespace. -/
def stripChars (l : List Char) : List Char :=
  ((l.dropWhile isSpaceC).reverse.dropWhile isSpaceC).reverse

/-- Date separators understood by the datetime parser. -/
def isSepC (c : Char) : Bool := c = '-' ∨ c = '/'

/-- Split a character list on date separators. -/
def splitSep : List Char → List (List Char)
  | [] => [[]]
  | c :: cs =>
      if isSepC c then [] :: splitSep cs
      else
        match splitSep cs with
        | [] => [[c]]
        | g :: gs => (c :: g) :: gs

/-- Numeric value of a digit character. -/
def digitVal (c : Char) : Nat := c.toNat - 48

/-- Decimal digit recognizer. -/
def isDigitC (c : Char) : Bool := 48 ≤ c.toNat ∧ c.toNat ≤ 57

/-- Accumulating decimal parser; fails on a non-digit. -/
def parseNatAux : List Char → Nat → Option Nat
  | [], acc => some acc
  | c :: cs, acc =>
      if isDigitC c then parseNatAux cs (acc * 10 + digitVal c) else none

/-- Parse a non-empty all-digit string. -/
def parseNatDigits (l : List Char) : Option Nat :=
  if l = [] then none else parseNatAux l 0

/-- `pd.to_datetime(s.strip(), dayfirst=True)` on a `d-m-y` (or `d/m/y`)
string: strip first, then read the FIRST component as the day and the
SECOND as the month, with range validation; the result is encoded as a
`yyyymmdd` natural number. -/
def parseDateDayFirst (s : List Char) : Option Nat :=
  match splitSep (stripChars s) with
  | [a, b, c] =>
      match parseNatDigits a, parseNatDigits b, parseNatDigits c with
      | some d, some m, some y =>
          if 1 ≤ d ∧ d ≤ 31 ∧ 1 ≤ m ∧ m ≤ 12 then
            some (y * 10000 + m * 100 + d)
          else none
      | _, _, _ => none
  | _ => none

/-- One raw CSV row before date parsing. -/
structure RawRow where
  dateStr : List Char
  region : String
  area : String
  rate : ℚ
  employed : ℚ
  participation : ℚ
deriving DecidableEq

/-- `load_data` on one row: parse the date day-first (line 25), then
derive the `Year`/`Month` columns from the parsed date (lines 28-29). -/
def loadRow (rr : RawRow) : Option Obs :=
  match parseDateDayFirst rr.dateStr with
  | none => none
  | some d => some ⟨d, rr.region, rr.area, rr.rate, rr.employed,
      rr.participation, d / 10000, d / 100 % 100⟩

/-- `load_data` over the table: an unparseable date fails the whole
load (`pd.to_datetime` raises). -/
def loadData (rows : List RawRow) : Option (List Obs) := rows.mapM loadRow

/-- `df.columns.str.strip()` followed by a column lookup (line 22):
the index of a column, found by its stripped header. -/
def findCol (headers : List (List Char)) (name : List Char) : Option Nat :=
  (headers.map stripChars).indexOf? name

/-- The decimal digit characters. -/
def digitChar : Nat → Char
  | 0 => '0' | 1 => '1' | 2 => '2' | 3 => '3' | 4 => '4'
  | 5 => '5' | 6 => '6' | 7 => '7' | 8 => '8' | _ => '9'

/-- Decimal rendering of a natural number. -/
def natDigits (n : Nat) : List Char :=
  if h : n < 10 then [digitChar n]
  else natDigits (n / 10) ++ [digitChar (n % 10)]
decreasing_by exact Nat.div_lt_self (by omega) (by norm_num)

/-- A date string in `d-m-y` layout. -/
def renderDate (d m y : Nat) : List Char :=
  natDigits d ++ ('-' :: (natDigits m ++ ('-' :: natDigits y)))

/-! ### Generic list lemmas -/

theorem foldl_min_le_init (l : List Obs) (a : Nat) :
    l.foldl (fun acc x => min acc x.date) a ≤ a := by
  induction l generalizing a with
  | nil => simp
  | cons x xs ih => exact le_trans (ih (min a x.date)) (min_le_left _ _)

theorem foldl_min_le_mem (l : List Obs) (a : Nat) (o : Obs) (h : o ∈ l) :
    l.foldl (fun acc x => min acc x.date) a ≤ o.date := by
  induction l generalizing a with
  | nil => cases h
  | cons x xs ih =>
    rcases List.mem_cons.mp h with h1 | h2
    · subst h1
      exact le_trans (foldl_min_le_init xs _) (min_le_right _ _)
    · exact ih _ h2

theorem init_le_foldl_max (l : List Obs) (a : Nat) :
    a ≤ l.foldl (fun acc x => max acc x.date) a := by
  induction l generalizing a with
  | nil => simp
  | cons x xs ih => exact le_trans (le_max_left _ _) (ih (max a x.date))

theorem mem_le_foldl_max (l : List Obs) (a : Nat) (o : Obs) (h : o ∈ l) :
    o.date ≤ l.foldl (fun acc x => max acc x.date) a := by
  induction l generalizing a with
  | nil => cases h
  | cons x xs ih =>
    rcases List.mem_cons.mp h with h1 | h2
    · subst h1
      exact le_trans (le_max_right _ _) (init_le_foldl_max xs _)
    · exact ih _ h2

theorem minDate_le (df : List Obs) (o : Obs) (h : o ∈ df) :
    minDate df ≤ o.date := by
  cases df with
  | nil => cases h
  | cons x xs =>
    rcases List.mem_cons.mp h with h1 | h2
    · subst h1; exact foldl_min_le_init xs _
    · exact foldl_min_le_mem xs _ o h2

theorem le_maxDate (df : List Obs) (o : Obs) (h : o ∈ df) :
    o.date ≤ maxDate df := by
  cases df with
  | nil => cases h
  | cons x xs =>
    rcases List.mem_cons.mp h with h1 | h2
    · subst h1; exact init_le_foldl_max xs _
    · exact mem_le_foldl_max xs _ o h2

theorem mem_firstUniqueAux {α : Type} [DecidableEq α] (l : List α) (x : α) :
    ∀ seen : List α, x ∈ firstUniqueAux l seen ↔ x ∈ l ∧ x ∉ seen := by
  induction l with
  | nil => intro seen; simp [firstUniqueAux]
  | cons y ys ih =>
    intro seen
    by_cases hy : y ∈ seen
    · rw [firstUniqueAux, if_pos hy, ih, List.mem_cons]
      constructor
      · rintro ⟨h1, h2⟩; exact ⟨Or.inr h1, h2⟩
      · rintro ⟨h1 | h1, h2⟩
        · subst h1; exact absurd hy h2
        · exact ⟨h1, h2⟩
    · rw [firstUniqueAux, if_neg hy, List.mem_cons, ih, List.mem_cons]
      by_cases hxy : x = y
      · subst hxy; simp [hy]
      · simp [hxy]

theorem mem_firstUnique {α : Type} [DecidableEq α] (l : List α) (x : α) :
    x ∈ firstUnique l ↔ x ∈ l := by
  simp [firstUnique, mem_firstUniqueAux]

/-! ### C3: inclusive date filtering, empty view on inverted range -/

/-- C3: the filter stage keeps exactly the rows whose date `d` satisfies
`start ≤ d` and `d ≤ stop` (both bounds inclusive, order preserved);
when `stop < start` the result is the empty view and grouping it
produces zero aggregate rows — no error is raised (the function is
total). -/
theorem filterDates_keeps_range (df : List Obs) (start stop : Nat) :
    (∀ o : Obs, o ∈ filterDates df start stop ↔
      o ∈ df ∧ (start ≤ o.date ∧ o.date ≤ stop)) ∧
    (filterDates df start stop).Sublist df ∧
    (stop < start → filterDates df start stop = [] ∧
      groupMeanDate (filterDates df start stop) = []) := by
  refine ⟨?_, List.filter_sublist _, ?_⟩
  · intro o
    simp [filterDates, List.mem_filter]
  · intro hlt
    have hempty : filterDates df start stop = [] := by
      rw [filterDates, List.filter_eq_nil_iff]
      intro o _
      simp only [decide_eq_true_eq, not_and]
      omega
    refine ⟨hempty, ?_⟩
    rw [hempty]
    rfl

/-- Witness for `filterDates_keeps_range`: a concrete table with an
inverted date range yields the empty view and zero aggregate rows. -/
theorem filterDates_keeps_range_witness :
    filterDates dfBA 5 3 = [] ∧ groupMeanDate (filterDates dfBA 5 3) = [] :=
  (filterDates_keeps_range dfBA 5 3).2.2 (by decide)

/-! ### C4: the full selection is the identity filter -/

/-- C4: filtering a non-empty table with the full (sorted, de-duplicated)
region list, the full date range (table minimum to table maximum) and
area `"Both"` returns the original table; in particular `"Both"`
applies no restriction on the area dimension. -/
theorem filterStage_identity (df : List Obs) (h : df ≠ []) :
    filterStage df (allRegionsSorted df) (minDate df) (maxDate df) "Both"
      = df := by
  have hreg : filterRegions df (allRegionsSorted df) = df := by
    rw [filterRegions, List.filter_eq_self]
    intro o ho
    simp only [allRegionsSorted, List.mem_insertionSort, uniqueRegions,
      mem_firstUnique, List.mem_map, decide_eq_true_eq]
    exact ⟨o, ho, rfl⟩
  have hdate : filterDates df (minDate df) (maxDate df) = df := by
    rw [filterDates, List.filter_eq_self]
    intro o ho
    simp only [decide_eq_true_eq]
    exact ⟨minDate_le df o ho, le_maxDate df o ho⟩
  rw [filterStage, hreg, hdate, filterArea]
  simp

/-- Witness for `filterStage_identity` at a concrete non-empty table. -/
theorem filterStage_identity_witness :
    filterStage dfBA (allRegionsSorted dfBA) (minDate dfBA) (maxDate dfBA)
      "Both" = dfBA :=
  filterStage_identity dfBA (by decide)

/-! ### C5: shape, values and ordering of the grouped means -/

/-- C5: a grouped mean emits exactly one row per key value that occurs
in the view (no duplicates, no rows for absent keys), its value is the
arithmetic mean of the unemployment rate over exactly the rows sharing
that key, and the emitted keys are strictly ascending. -/
theorem groupMean_rows (κ : Type) [LinearOrder κ] (df : List Obs)
    (key : Obs → κ) :
    ((groupMeanBy df key).map Prod.fst).Nodup ∧
    (∀ k : κ, k ∈ (groupMeanBy df key).map Prod.fst ↔
      ∃ o ∈ df, key o = k) ∧
    (∀ k m, (k, m) ∈ groupMeanBy df key →
      df.filter (fun o => key o = k) ≠ [] ∧
      m = meanQ ((df.filter (fun o => key o = k)).map (·.rate))) ∧
    ((groupMeanBy df key).map Prod.fst).Sorted (· < ·) := by
  have hfst : (groupMeanBy df key).map Prod.fst
      = List.insertionSort (· ≤ ·) ((df.map key).dedup) := by
    rw [groupMeanBy, List.map_map]
    exact List.map_id _
  have hnd : (List.insertionSort (· ≤ ·) ((df.map key).dedup)).Nodup :=
    (List.perm_insertionSort _ _).nodup_iff.mpr (List.nodup_dedup _)
  refine ⟨?_, ?_, ?_, ?_⟩
  · rw [hfst]; exact hnd
  · intro k
    rw [hfst, List.mem_insertionSort, List.mem_dedup, List.mem_map]
  · intro k m hkm
    rcases List.mem_map.mp hkm with ⟨k', hk', heq⟩
    have hk2 : k' = k := congrArg Prod.fst heq
    subst hk2
    have hm : m = meanQ ((df.filter (fun o => key o = k')).map (·.rate)) :=
      (congrArg Prod.snd heq).symm
    have hocc : ∃ o ∈ df, key o = k' := by
      rw [← List.mem_map, ← List.mem_dedup, ← List.mem_insertionSort
        (· ≤ ·)]
      exact hk'
    rcases hocc with ⟨o, ho, hko⟩
    refine ⟨?_, hm⟩
    apply List.ne_nil_of_mem (a := o)
    rw [List.mem_filter]
    exact ⟨ho, by simp [hko]⟩
  · rw [hfst]
    exact (List.sorted_insertionSort _ _).lt_of_le hnd

/-- Witness for `groupMean_rows`: the concrete grouped row
`(20190601, 10)` of `dfBA` comes from a non-empty group and equals the
group's arithmetic mean. -/
theorem groupMean_rows_witness :
    dfBA.filter (fun o => o.date = (20190601 : Nat)) ≠ [] ∧
    (10 : ℚ) = meanQ ((dfBA.filter
      (fun o => o.date = (20190601 : Nat))).map (·.rate)) :=
  (groupMean_rows Nat dfBA (·.date)).2.2.1 20190601 10 (by
    norm_num [groupMeanBy, dfBA, rowA1, rowA2, rowB1, rowB2, meanQ,
      List.insertionSort, List.orderedInsert, List.dedup_cons_of_mem,
      List.dedup_cons_of_not_mem])

/-! ### C7: weighted recombination of grouped means -/

theorem sum_filter_not_add (l : List Obs) (p : Obs → Bool) (f : Obs → ℚ) :
    ((l.filter p).map f).sum + ((l.filter (fun o => !(p o))).map f).sum
      = (l.map f).sum := by
  induction l with
  | nil => simp
  | cons x xs ih =>
    by_cases hx : p x = true
    · rw [List.filter_cons_of_pos hx, List.filter_cons_of_neg (by simp [hx])]
      simp only [List.map_cons, List.sum_cons]
      rw [← ih]; ring
    · have hx' : p x = false := by
        revert hx; cases p x <;> simp
      rw [List.filter_cons_of_neg (by simp [hx']),
        List.filter_cons_of_pos (by simp [hx'])]
      simp only [List.map_cons, List.sum_cons]
      rw [← ih]; ring

theorem sum_groups {κ : Type} [DecidableEq κ] (key : Obs → κ) (f : Obs → ℚ)
    (ks : List κ) :
    ks.Nodup → ∀ l : List Obs, (∀ o ∈ l, key o ∈ ks) →
    (ks.map (fun k => ((l.filter (fun o => key o = k)).map f).sum)).sum
      = (l.map f).sum := by
  induction ks with
  | nil =>
    intro _ l hcov
    have hl : l = [] := by
      cases l with
      | nil => rfl
      | cons o t => exact absurd (hcov o (by simp)) (by simp)
    subst hl; simp
  | cons k ks ih =>
    intro hnd l hcov
    have hk : k ∉ ks := (List.nodup_cons.mp hnd).1
    have hnd' : ks.Nodup := (List.nodup_cons.mp hnd).2
    set l' : List Obs := l.filter (fun o => !(decide (key o = k))) with hl'
    have hcov' : ∀ o ∈ l', key o ∈ ks := by
      intro o ho
      rcases List.mem_filter.mp ho with ⟨hmem, hne⟩
      have hnk : key o ≠ k := by
        intro hcontra
        simp [hcontra] at hne
      rcases List.mem_cons.mp (hcov o hmem) with h1 | h1
      · exact absurd h1 hnk
      · exact h1
    have hsame : ∀ k0 ∈ ks,
        l'.filter (fun o => key o = k0) = l.filter (fun o => key o = k0) := by
      intro k0 hk0
      have hkk : k0 ≠ k := by
        intro hcontra; subst hcontra; exact hk hk0
      rw [hl', List.filter_filter]
      apply List.filter_congr
      intro o _
      by_cases ho : key o = k0
      · simp [ho, hkk]
      · simp [ho]
    have hmapeq :
        ks.map (fun k0 => ((l.filter (fun o => key o = k0)).map f).sum)
          = ks.map (fun k0 => ((l'.filter (fun o => key o = k0)).map f).sum) := by
      apply List.map_congr_left
      intro k0 hk0
      rw [hsame k0 hk0]
    rw [List.map_cons, List.sum_cons, hmapeq, ih hnd' l' hcov']
    exact sum_filter_not_add l _ f

theorem sum_map_one (l : List Obs) :
    (l.map (fun _ => (1 : ℚ))).sum = (l.length : ℚ) := by
  induction l with
  | nil => simp
  | cons x xs ih =>
    simp only [List.map_cons, List.sum_cons, ih, List.length_cons]
    push_cast
    ring

/-- C7: summing the per-date grouped means weighted by their group
counts, and dividing by the total count, reproduces the overall
arithmetic mean of the unemployment rate over the whole view. -/
theorem groupMean_recombines (df : List Obs) (h : df ≠ []) :
    ((groupMeanDate df).map (fun km =>
        km.2 * ((df.filter (fun o => o.date = km.1)).length : ℚ))).sum
      / ((groupMeanDate df).map (fun km =>
        ((df.filter (fun o => o.date = km.1)).length : ℚ))).sum
      = meanQ (df.map (·.rate)) := by
  have hks : ∀ k : Nat,
      k ∈ List.insertionSort (· ≤ ·) ((df.map (fun o => o.date)).dedup) →
      df.filter (fun o => o.date = k) ≠ [] := by
    intro k hk
    rw [List.mem_insertionSort, List.mem_dedup, List.mem_map] at hk
    rcases hk with ⟨o, ho, hko⟩
    apply List.ne_nil_of_mem (a := o)
    rw [List.mem_filter]
    exact ⟨ho, by simp [hko]⟩
  have hperm : List.Perm
      (List.insertionSort (· ≤ ·) ((df.map (fun o => o.date)).dedup))
      ((df.map (fun o => o.date)).dedup) := List.perm_insertionSort _ _
  have hcov : ∀ o ∈ df, o.date ∈ (df.map (fun o => o.date)).dedup := by
    intro o ho
    rw [List.mem_dedup, List.mem_map]
    exact ⟨o, ho, rfl⟩
  have hnum : ((groupMeanDate df).map (fun km =>
      km.2 * ((df.filter (fun o => o.date = km.1)).length : ℚ))).sum
      = (df.map (·.rate)).sum := by
    simp only [groupMeanDate, groupMeanBy, List.map_map, Function.comp]
    rw [List.map_congr_left (g := fun k =>
        ((df.filter (fun o => o.date = k)).map (·.rate)).sum) ?_]
    · rw [(hperm.map _).sum_eq]
      exact sum_groups (·.date) (·.rate) _ (List.nodup_dedup _) df hcov
    · intro k hk
      have hlen : (df.filter (fun o => o.date = k)).length ≠ 0 := by
        intro hc
        exact (hks k hk) (List.eq_nil_of_length_eq_zero hc)
      simp only [Function.comp_apply, meanQ, List.length_map]
      rw [div_mul_cancel₀]
      exact_mod_cast hlen
  have hden : ((groupMeanDate df).map (fun km =>
      ((df.filter (fun o => o.date = km.1)).length : ℚ))).sum
      = (df.length : ℚ) := by
    simp only [groupMeanDate, groupMeanBy, List.map_map, Function.comp]
    rw [List.map_congr_left (g := fun k =>
        ((df.filter (fun o => o.date = k)).map (fun _ => (1 : ℚ))).sum) ?_]
    · rw [(hperm.map _).sum_eq]
      rw [sum_groups (·.date) (fun _ => (1 : ℚ)) _ (List.nodup_dedup _) df hcov]
      exact sum_map_one df
    · intro k hk
      simp only [Function.comp_apply]
      exact (sum_map_one _).symm
  rw [hnum, hden, meanQ, List.length_map]

/-- Witness for `groupMean_recombines` at a concrete non-empty view. -/
theorem groupMean_recombines_witness :
    ((groupMeanDate dfBA).map (fun km =>
        km.2 * ((dfBA.filter (fun o => o.date = km.1)).length : ℚ))).sum
      / ((groupMeanDate dfBA).map (fun km =>
        ((dfBA.filter (fun o => o.date = km.1)).length : ℚ))).sum
      = meanQ (dfBA.map (·.rate)) :=
  groupMean_recombines dfBA (by simp [dfBA])

/-! ### C10: the unguarded headline percentage change -/

/-- C10: the overall headline percentage change is computed with no
`pre > 0` guard, so a zero pre-window mean makes it the undefined
value rather than the `0` sentinel that the guarded per-region and
per-area computations return in that case. -/
theorem overallPctChange_unguarded (df : List Obs)
    (h : overallPre df = some 0) :
    overallPctChange df = none ∧ overallPctChange df ≠ some 0 ∧
    (∀ r, regionPre df r = some 0 → regionPct df r = some 0) ∧
    (∀ a, areaPre df a = some 0 → areaPctChange df a = some 0) := by
  have hmain : overallPctChange df = none := by
    rw [overallPctChange, h]
    cases hpost : overallPost df with
    | none => simp [vsub, vdiv, vmul]
    | some q => simp [vsub, vdiv, vmul]
  refine ⟨hmain, by rw [hmain]; simp, ?_, ?_⟩
  · intro r hr
    rw [regionPct, hr]
    simp [vgtZero]
  · intro a ha
    rw [areaPctChange, ha]
    simp [vgtZero]

/-- Witness for `overallPctChange_unguarded`: the zero pre-window mean
is reachable and there the headline change is undefined. -/
theorem overallPctChange_unguarded_witness :
    overallPre dfZ = some 0 ∧ overallPctChange dfZ = none := by
  have hpre : overallPre dfZ = some 0 := by
    norm_num [overallPre, preCovid, filterDates, dfZ, rowZ1, rowZ2,
      meanVal, meanQ]
  exact ⟨hpre, (overallPctChange_unguarded dfZ hpre).1⟩

/-! ### C1: the per-region Covid impact record -/

/-- C1: for every region of the dataset there is an impact record whose
pre/post means are taken over the fixed inclusive windows
`[2019-05-01, 2020-02-29]` and `[2020-03-01, 2020-06-30]` restricted to
that region, whose absolute change is post minus pre, and whose
percentage change is `(post - pre) / pre * 100` when the pre-mean is
positive and the `0` sentinel otherwise. -/
theorem covid_impact_record (df : List Obs) (r : String)
    (h : r ∈ uniqueRegions df) :
    (⟨r, regionPre df r, regionPost df r, regionChange df r,
        regionPct df r⟩ : ImpactRecord) ∈ regionImpactFull df ∧
    regionPre df r = meanVal ((df.filter (fun o =>
      o.region = r ∧ 20190501 ≤ o.date ∧ o.date ≤ 20200229)).map (·.rate)) ∧
    regionPost df r = meanVal ((df.filter (fun o =>
      o.region = r ∧ 20200301 ≤ o.date ∧ o.date ≤ 20200630)).map (·.rate)) ∧
    regionChange df r = vsub (regionPost df r) (regionPre df r) ∧
    (∀ p q : ℚ, regionPre df r = some p → 0 < p →
      regionPost df r = some q →
      regionPct df r = some ((q - p) / p * 100)) ∧
    (vgtZero (regionPre df r) = false → regionPct df r = some 0) := by
  refine ⟨?_, ?_, ?_, rfl, ?_, ?_⟩
  · rw [regionImpactFull, List.mem_map]
    exact ⟨r, h, rfl⟩
  · rw [regionPre, preCovid, filterDates, List.filter_filter]
    have hfeq : df.filter (fun a => decide (a.region = r)
          && decide (20190501 ≤ a.date ∧ a.date ≤ 20200229))
        = df.filter (fun o =>
          decide (o.region = r ∧ 20190501 ≤ o.date ∧ o.date ≤ 20200229)) := by
      apply List.filter_congr
      intro o _
      by_cases h1 : o.region = r <;> by_cases h2 : 20190501 ≤ o.date <;>
        by_cases h3 : o.date ≤ 20200229 <;> simp [h1, h2, h3]
    rw [hfeq]
  · rw [regionPost, postCovid, filterDates, List.filter_filter]
    have hfeq : df.filter (fun a => decide (a.region = r)
          && decide (20200301 ≤ a.date ∧ a.date ≤ 20200630))
        = df.filter (fun o =>
          decide (o.region = r ∧ 20200301 ≤ o.date ∧ o.date ≤ 20200630)) := by
      apply List.filter_congr
      intro o _
      by_cases h1 : o.region = r <;> by_cases h2 : 20200301 ≤ o.date <;>
        by_cases h3 : o.date ≤ 20200630 <;> simp [h1, h2, h3]
    rw [hfeq]
  · intro p q hp hp0 hq
    have hgt : vgtZero (regionPre df r) = true := by
      rw [hp]; simp [vgtZero, hp0]
    rw [regionPct, if_pos hgt, regionChange, hp, hq]
    simp [vsub, vdiv, vmul, hp0.ne']
  · intro hfalse
    rw [regionPct, if_neg (by simp [hfalse])]

/-- Witness for `covid_impact_record`: region `"A"` of `dfBA` has
pre-mean 10, post-mean 15 and percentage change `(15-10)/10*100`. -/
theorem covid_impact_record_witness :
    regionPct dfBA "A" = some (((15 : ℚ) - 10) / 10 * 100) := by
  have hpre : regionPre dfBA "A" = some 10 := by
    simp [regionPre, preCovid, filterDates, dfBA, rowA1, rowA2,
      rowB1, rowB2, meanVal, meanQ]
  have hpost : regionPost dfBA "A" = some 15 := by
    simp [regionPost, postCovid, filterDates, dfBA, rowA1, rowA2,
      rowB1, rowB2, meanVal, meanQ]
  exact (covid_impact_record dfBA "A" (by decide)).2.2.2.2.1 10 15 hpre
    (by norm_num) hpost

/-! ### C2: the most-affected-region tie-break -/

theorem idxmaxV_mem (l : List (String × Val)) (r : String) (v : ℚ) :
    idxmaxV l = some (r, v) → (r, some v) ∈ l := by
  induction l with
  | nil => intro hc; cases hc
  | cons x rest ih =>
    rcases x with ⟨r0, w0⟩
    cases w0 with
    | none =>
      intro hc
      exact List.mem_cons_of_mem _ (ih hc)
    | some v0 =>
      intro hc
      rw [idxmaxV] at hc
      cases hrest : idxmaxV rest with
      | none =>
        rw [hrest] at hc
        dsimp only at hc
        injection hc with hpair
        injection hpair with hr hv
        subst hr
        subst hv
        exact List.mem_cons_self _ _
      | some p =>
        rcases p with ⟨r1, v1⟩
        rw [hrest] at hc
        dsimp only at hc
        by_cases hv : v0 < v1
        · rw [if_pos hv] at hc
          injection hc with hpair
          injection hpair with hr hv2
          subst hr
          subst hv2
          exact List.mem_cons_of_mem _ (ih hrest)
        · rw [if_neg hv] at hc
          injection hc with hpair
          injection hpair with hr hv2
          subst hr
          subst hv2
          exact List.mem_cons_self _ _

theorem idxmaxV_first_max (l1 l2 : List (String × Val)) (r : String) (v : ℚ)
    (h1 : ∀ r' v', (r', some v') ∈ l1 → v' < v)
    (h2 : ∀ r' v', (r', some v') ∈ l2 → v' ≤ v) :
    idxmaxV (l1 ++ (r, some v) :: l2) = some (r, v) := by
  induction l1 with
  | nil =>
    rw [List.nil_append, idxmaxV]
    cases hrest : idxmaxV l2 with
    | none => rfl
    | some p =>
      rcases p with ⟨r1, v1⟩
      have hv1 : v1 ≤ v := h2 r1 v1 (idxmaxV_mem l2 r1 v1 hrest)
      dsimp only
      rw [if_neg (not_lt.mpr hv1)]
  | cons x xs ih =>
    have htail : idxmaxV (xs ++ (r, some v) :: l2) = some (r, v) :=
      ih (fun r' v' hm => h1 r' v' (List.mem_cons_of_mem _ hm))
    rcases x with ⟨r0, w0⟩
    cases w0 with
    | none =>
      rw [List.cons_append, idxmaxV]
      exact htail
    | some v0 =>
      have hv0 : v0 < v := h1 r0 v0 (List.mem_cons_self _ _)
      rw [List.cons_append, idxmaxV, htail]
      dsimp only
      rw [if_pos hv0]

/-- C2 counterexample: in `dfBA` the regions `"B"` (first occurrence
first) and `"A"` tie on the maximal absolute change `5`, and the code
resolves the tie to `"B"` — the first region in `unique()` order — not
to the alphabetically first region `"A"`. -/
theorem mostAffected_not_alphabetical :
    regionChange dfBA "A" = some 5 ∧ regionChange dfBA "B" = some 5 ∧
    mostAffected dfBA = some "B" ∧ mostAffected dfBA ≠ some "A" := by
  have hA : regionChange dfBA "A" = some 5 := by
    simp [regionChange, regionPre, regionPost, preCovid, postCovid,
      filterDates, dfBA, rowA1, rowA2, rowB1, rowB2, meanVal, meanQ, vsub]
    norm_num
  have hB : regionChange dfBA "B" = some 5 := by
    simp [regionChange, regionPre, regionPost, preCovid, postCovid,
      filterDates, dfBA, rowA1, rowA2, rowB1, rowB2, meanVal, meanQ, vsub]
    norm_num
  have hlist : regionImpacts dfBA = [("B", some 5), ("A", some 5)] := by
    rw [regionImpacts]
    have hu : uniqueRegions dfBA = ["B", "A"] := by
      simp [uniqueRegions, dfBA, rowA1, rowA2, rowB1, rowB2, firstUnique,
        firstUniqueAux]
    rw [hu, List.map_cons, List.map_cons, List.map_nil, hA, hB]
  have hmost : mostAffected dfBA = some "B" := by
    rw [mostAffected, hlist, idxmaxV, idxmaxV, idxmaxV]
    norm_num
  exact ⟨hA, hB, hmost, by rw [hmost]; simp⟩

/-- C2 amended: the most affected region is a region whose absolute
change is maximal over the regions with a defined change, and a tie on
the maximal change resolves to the region occurring first in the
dataset's first-occurrence order of `df['Region'].unique()` (not to the
alphabetically first region). -/
theorem mostAffected_first_occurrence (df : List Obs)
    (l1 l2 : List (String × Val)) (r : String) (v : ℚ)
    (hsplit : regionImpacts df = l1 ++ (r, some v) :: l2)
    (h1 : ∀ r' v', (r', some v') ∈ l1 → v' < v)
    (h2 : ∀ r' v', (r', some v') ∈ l2 → v' ≤ v) :
    mostAffected df = some r := by
  rw [mostAffected, hsplit, idxmaxV_first_max l1 l2 r v h1 h2]
  rfl

/-- Witness for `mostAffected_first_occurrence`: on `dfBA` the split
`[] ++ ("B", 5) :: [("A", 5)]` satisfies the hypotheses and the result
is `"B"`. -/
theorem mostAffected_first_occurrence_witness :
    mostAffected dfBA = some "B" := by
  apply mostAffected_first_occurrence dfBA [] [("A", some 5)] "B" 5
  · have hA : regionChange dfBA "A" = some 5 := by
      simp [regionChange, regionPre, regionPost, preCovid, postCovid,
        filterDates, dfBA, rowA1, rowA2, rowB1, rowB2, meanVal, meanQ, vsub]
      norm_num
    have hB : regionChange dfBA "B" = some 5 := by
      simp [regionChange, regionPre, regionPost, preCovid, postCovid,
        filterDates, dfBA, rowA1, rowA2, rowB1, rowB2, meanVal, meanQ, vsub]
      norm_num
    have hu : uniqueRegions dfBA = ["B", "A"] := by
      simp [uniqueRegions, dfBA, rowA1, rowA2, rowB1, rowB2, firstUnique,
        firstUniqueAux]
    rw [regionImpacts, hu, List.map_cons, List.map_cons, List.map_nil,
      hA, hB]
    rfl
  · intro r' v' hm
    cases hm
  · intro r' v' hm
    rcases List.mem_singleton.mp hm with heq
    have : v' = 5 := by
      injection heq with h1 h2
      injection h2
    rw [this]

/-! ### C6/C8: per-region Pearson correlation -/

theorem sxx_nonneg (l : List (ℚ × ℚ)) : 0 ≤ sxx l := by
  apply List.sum_nonneg
  intro x hx
  rcases List.mem_map.mp hx with ⟨p, _, hp⟩
  rw [← hp]
  exact mul_self_nonneg _

theorem syy_nonneg (l : List (ℚ × ℚ)) : 0 ≤ syy l := by
  apply List.sum_nonneg
  intro x hx
  rcases List.mem_map.mp hx with ⟨p, _, hp⟩
  rw [← hp]
  exact mul_self_nonneg _

theorem corrV_cases (l : List (ℚ × ℚ)) :
    (l.length < 2 ∨ sxx l = 0 ∨ syy l = 0 → corrV l = none) ∧
    (2 ≤ l.length → sxx l ≠ 0 → syy l ≠ 0 → corrV l = some (pearsonR l)) := by
  constructor
  · intro hdeg
    rw [corrV]
    rcases hdeg with h1 | h2
    · rw [if_pos h1]
    · by_cases h1 : l.length < 2
      · rw [if_pos h1]
      · rw [if_neg h1, if_pos h2]
  · intro hlen hx hy
    have h1 : ¬ l.length < 2 := not_lt.mpr hlen
    rw [corrV, if_neg h1, if_neg (by push_neg; exact ⟨hx, hy⟩)]
    congr 1
    have hN : (0 : ℝ) < ((l.length : ℚ) : ℝ) - 1 := by
      have : (2 : ℚ) ≤ (l.length : ℚ) := by exact_mod_cast hlen
      have h2 : (2 : ℝ) ≤ ((l.length : ℚ) : ℝ) := by exact_mod_cast this
      linarith
    have hNne : ((l.length : ℚ) : ℝ) - 1 ≠ 0 := ne_of_gt hN
    have hxxR : (0 : ℝ) < ((sxx l : ℚ) : ℝ) := by
      have := lt_of_le_of_ne (sxx_nonneg l) (Ne.symm hx)
      exact_mod_cast this
    have hyyR : (0 : ℝ) < ((syy l : ℚ) : ℝ) := by
      have := lt_of_le_of_ne (syy_nonneg l) (Ne.symm hy)
      exact_mod_cast this
    have hsq : Real.sqrt (((sxx l : ℚ) : ℝ) * ((syy l : ℚ) : ℝ)) ≠ 0 :=
      ne_of_gt (Real.sqrt_pos.mpr (mul_pos hxxR hyyR))
    rw [pearsonR]
    push_cast
    rw [Real.sqrt_div (le_of_lt hxxR), Real.sqrt_div (le_of_lt hyyR)]
    have h2R : (2 : ℝ) ≤ (l.length : ℝ) := by exact_mod_cast hlen
    have hN2 : (0 : ℝ) ≤ (l.length : ℝ) - 1 := by linarith
    have hNne2 : ((l.length : ℝ) - 1) ≠ 0 := by
      intro hc
      linarith
    rw [div_mul_div_comm, Real.mul_self_sqrt hN2,
      ← Real.sqrt_mul (le_of_lt hxxR),
      div_div_div_cancel_right₀ hNne2]

/-- C6: the per-region correlation is the undefined sentinel (`none`,
modelling NaN) whenever the region's subset has fewer than two
observations or zero variance in either paired variable, and the
standard Pearson sample correlation otherwise; it is total, so it never
crashes. -/
theorem regionCorr_sentinel (df : List Obs) (r : String) (f g : Obs → ℚ) :
    ((regionPairs df r f g).length < 2 ∨ sxx (regionPairs df r f g) = 0 ∨
        syy (regionPairs df r f g) = 0 → regionCorr df r f g = none) ∧
    (2 ≤ (regionPairs df r f g).length → sxx (regionPairs df r f g) ≠ 0 →
      syy (regionPairs df r f g) ≠ 0 →
      regionCorr df r f g = some (pearsonR (regionPairs df r f g))) := by
  constructor
  · intro hdeg
    rw [regionCorr]
    exact (corrV_cases (regionPairs df r f g)).1 hdeg
  · intro hlen hx hy
    rw [regionCorr]
    exact (corrV_cases (regionPairs df r f g)).2 hlen hx hy

/-- Witness for `regionCorr_sentinel`: region `"Z"` of `dfZ` has a
two-row subset with nonzero variances, so its correlation is the
Pearson value; and the empty subset of region `"Q"` gives the
sentinel. -/
theorem regionCorr_sentinel_witness :
    regionCorr dfZ "Z" (·.rate) (·.employed)
      = some (pearsonR (regionPairs dfZ "Z" (·.rate) (·.employed))) ∧
    regionCorr dfZ "Q" (·.rate) (·.employed) = none := by
  constructor
  · apply (regionCorr_sentinel dfZ "Z" (·.rate) (·.employed)).2
    · simp [regionPairs, pairsOf, dfZ, rowZ1, rowZ2]
    · simp [regionPairs, pairsOf, dfZ, rowZ1, rowZ2, sxx, fstMean, meanQ]
      norm_num
    · simp [regionPairs, pairsOf, dfZ, rowZ1, rowZ2, syy, sndMean, meanQ]
      norm_num
  · apply (regionCorr_sentinel dfZ "Q" (·.rate) (·.employed)).1
    left
    simp [regionPairs, pairsOf, dfZ, rowZ1, rowZ2]

/-! ### C8: symmetry of the correlation -/

theorem fstMean_swap (l : List (ℚ × ℚ)) :
    fstMean (l.map Prod.swap) = sndMean l := by
  rw [fstMean, sndMean, List.map_map]
  rfl

theorem sndMean_swap (l : List (ℚ × ℚ)) :
    sndMean (l.map Prod.swap) = fstMean l := by
  rw [fstMean, sndMean, List.map_map]
  rfl

theorem sxy_swap (l : List (ℚ × ℚ)) : sxy (l.map Prod.swap) = sxy l := by
  rw [sxy, sxy, fstMean_swap, sndMean_swap, List.map_map]
  apply congrArg List.sum
  apply List.map_congr_left
  intro p _
  simp [Prod.swap]
  ring

theorem sxx_swap (l : List (ℚ × ℚ)) : sxx (l.map Prod.swap) = syy l := by
  rw [sxx, syy, fstMean_swap, List.map_map]
  rfl

theorem syy_swap (l : List (ℚ × ℚ)) : syy (l.map Prod.swap) = sxx l := by
  rw [sxx, syy, sndMean_swap, List.map_map]
  rfl

theorem corrV_swap (l : List (ℚ × ℚ)) :
    corrV (l.map Prod.swap) = corrV l := by
  rw [corrV, corrV, List.length_map, sxx_swap, syy_swap, sxy_swap]
  by_cases h1 : l.length < 2
  · rw [if_pos h1, if_pos h1]
  · rw [if_neg h1, if_neg h1]
    exact if_congr or_comm rfl (by rw [mul_comm])

/-- C8: the per-region Pearson correlation is symmetric in its two
column arguments: `corr(rate, employed) = corr(employed, rate)` on any
fixed region subset (with the NaN sentinel equal to itself under the
exact `Option` model). -/
theorem regionCorr_symm (df : List Obs) (r : String) (f g : Obs → ℚ) :
    regionCorr df r g f = regionCorr df r f g := by
  rw [regionCorr, regionCorr]
  have hswap : regionPairs df r g f
      = (regionPairs df r f g).map Prod.swap := by
    rw [regionPairs, regionPairs, pairsOf, pairsOf, List.map_map]
    rfl
  rw [hswap, corrV_swap]

/-! ### C9: the loader (header/date trimming, day-first parsing) -/

theorem digitChar_digit (n : Nat) (h : n < 10) :
    isDigitC (digitChar n) = true := by
  interval_cases n <;> decide

theorem digitVal_digitChar (n : Nat) (h : n < 10) :
    digitVal (digitChar n) = n := by
  interval_cases n <;> decide

theorem digitChar_not_sep (n : Nat) (h : n < 10) :
    isSepC (digitChar n) = false := by
  interval_cases n <;> decide

theorem digitChar_not_space (n : Nat) (h : n < 10) :
    isSpaceC (digitChar n) = false := by
  interval_cases n <;> decide

theorem parseNatAux_digits (l : List Char) :
    ∀ acc : Nat, (∀ c ∈ l, isDigitC c = true) →
    parseNatAux l acc
      = some (l.foldl (fun a c => a * 10 + digitVal c) acc) := by
  induction l with
  | nil => intro acc _; rfl
  | cons c cs ih =>
    intro acc hall
    rw [parseNatAux, if_pos (hall c (List.mem_cons_self _ _)),
      ih _ (fun c' hc' => hall c' (List.mem_cons_of_mem _ hc'))]
    rfl

theorem natDigits_ne_nil (n : Nat) : natDigits n ≠ [] := by
  rw [natDigits]
  by_cases h : n < 10
  · rw [dif_pos h]; simp
  · rw [dif_neg h]; simp

theorem natDigits_all_digits (n : Nat) :
    ∀ c ∈ natDigits n, isDigitC c = true := by
  induction n using Nat.strong_induction_on with
  | _ n ih =>
    rw [natDigits]
    by_cases h : n < 10
    · rw [dif_pos h]
      intro c hc
      rw [List.mem_singleton.mp hc]
      exact digitChar_digit n h
    · rw [dif_neg h]
      intro c hc
      rcases List.mem_append.mp hc with h1 | h1
      · exact ih (n / 10) (Nat.div_lt_self (by omega) (by norm_num)) c h1
      · rw [List.mem_singleton.mp h1]
        exact digitChar_digit _ (Nat.mod_lt _ (by norm_num))

theorem natDigits_no_sep (n : Nat) :
    ∀ c ∈ natDigits n, isSepC c = false := by
  induction n using Nat.strong_induction_on with
  | _ n ih =>
    rw [natDigits]
    by_cases h : n < 10
    · rw [dif_pos h]
      intro c hc
      rw [List.mem_singleton.mp hc]
      exact digitChar_not_sep n h
    · rw [dif_neg h]
      intro c hc
      rcases List.mem_append.mp hc with h1 | h1
      · exact ih (n / 10) (Nat.div_lt_self (by omega) (by norm_num)) c h1
      · rw [List.mem_singleton.mp h1]
        exact digitChar_not_sep _ (Nat.mod_lt _ (by norm_num))

theorem natDigits_no_space (n : Nat) :
    ∀ c ∈ natDigits n, isSpaceC c = false := by
  induction n using Nat.strong_induction_on with
  | _ n ih =>
    rw [natDigits]
    by_cases h : n < 10
    · rw [dif_pos h]
      intro c hc
      rw [List.mem_singleton.mp hc]
      exact digitChar_not_space n h
    · rw [dif_neg h]
      intro c hc
      rcases List.mem_append.mp hc with h1 | h1
      · exact ih (n / 10) (Nat.div_lt_self (by omega) (by norm_num)) c h1
      · rw [List.mem_singleton.mp h1]
        exact digitChar_not_space _ (Nat.mod_lt _ (by norm_num))

theorem foldl_natDigits (n : Nat) :
    ∀ acc : Nat, (natDigits n).foldl (fun a c => a * 10 + digitVal c) acc
      = acc * 10 ^ (natDigits n).length + n := by
  induction n using Nat.strong_induction_on with
  | _ n ih =>
    intro acc
    rw [natDigits]
    by_cases h : n < 10
    · rw [dif_pos h]
      simp [digitVal_digitChar n h]
    · rw [dif_neg h]
      have hmod : digitVal (digitChar (n % 10)) = n % 10 :=
        digitVal_digitChar _ (Nat.mod_lt _ (by norm_num))
      rw [List.foldl_append,
        ih (n / 10) (Nat.div_lt_self (by omega) (by norm_num)) acc]
      simp only [List.foldl_cons, List.foldl_nil, hmod, List.length_append,
        List.length_cons, List.length_nil]
      calc (acc * 10 ^ (natDigits (n / 10)).length + n / 10) * 10 + n % 10
          = acc * (10 ^ (natDigits (n / 10)).length * 10)
            + (n / 10 * 10 + n % 10) := by ring
        _ = acc * 10 ^ ((natDigits (n / 10)).length + 1) + n := by
            rw [pow_succ]
            congr 1
            omega

theorem parseNat_natDigits (n : Nat) :
    parseNatDigits (natDigits n) = some n := by
  rw [parseNatDigits, if_neg (natDigits_ne_nil n),
    parseNatAux_digits _ _ (natDigits_all_digits n), foldl_natDigits]
  simp

theorem splitSep_no_sep (l : List Char) (h : ∀ c ∈ l, isSepC c = false) :
    splitSep l = [l] := by
  induction l with
  | nil => rfl
  | cons c cs ih =>
    rw [splitSep, if_neg (by simp [h c (List.mem_cons_self _ _)]),
      ih (fun c' hc' => h c' (List.mem_cons_of_mem _ hc'))]

theorem splitSep_append_sep (a rest : List Char)
    (ha : ∀ c ∈ a, isSepC c = false) :
    splitSep (a ++ '-' :: rest) = a :: splitSep rest := by
  induction a with
  | nil =>
    rw [List.nil_append, splitSep, if_pos (by decide)]
  | cons c cs ih =>
    rw [List.cons_append, splitSep,
      if_neg (by simp [ha c (List.mem_cons_self _ _)]),
      ih (fun c' hc' => ha c' (List.mem_cons_of_mem _ hc'))]

theorem dropWhile_replicate_space (k : Nat) (l : List Char) :
    List.dropWhile isSpaceC (List.replicate k ' ' ++ l)
      = List.dropWhile isSpaceC l := by
  induction k with
  | zero => simp
  | succ k ih =>
    rw [List.replicate_succ, List.cons_append,
      List.dropWhile_cons_of_pos (by decide)]
    exact ih

theorem dropWhile_append_of_ne_nil (s r : List Char)
    (h : List.dropWhile isSpaceC s ≠ []) :
    List.dropWhile isSpaceC (s ++ r) = List.dropWhile isSpaceC s ++ r := by
  induction s with
  | nil => exact absurd rfl h
  | cons c cs ih =>
    by_cases hc : isSpaceC c = true
    · rw [List.cons_append, List.dropWhile_cons_of_pos hc,
        List.dropWhile_cons_of_pos hc]
      rw [List.dropWhile_cons_of_pos hc] at h
      exact ih h
    · rw [List.cons_append, List.dropWhile_cons_of_neg hc,
        List.dropWhile_cons_of_neg hc]
      rfl

theorem dropWhile_all_space (l : List Char)
    (h : ∀ c ∈ l, isSpaceC c = true) :
    List.dropWhile isSpaceC l = [] := by
  induction l with
  | nil => rfl
  | cons c cs ih =>
    rw [List.dropWhile_cons_of_pos (h c (List.mem_cons_self _ _))]
    exact ih (fun c' hc' => h c' (List.mem_cons_of_mem _ hc'))

theorem stripChars_pad (a b : Nat) (s : List Char) :
    stripChars (List.replicate a ' ' ++ s ++ List.replicate b ' ')
      = stripChars s := by
  rw [stripChars, stripChars, List.append_assoc, dropWhile_replicate_space]
  by_cases hnil : List.dropWhile isSpaceC s = []
  · have hall : ∀ c ∈ s, isSpaceC c = true := by
      intro c hc
      by_contra hcon
      have : List.dropWhile isSpaceC s ≠ [] := by
        intro hdrop
        have := List.dropWhile_eq_nil_iff.mp hdrop c hc
        exact hcon this
      exact this hnil
    have hall2 : ∀ c ∈ s ++ List.replicate b ' ', isSpaceC c = true := by
      intro c hc
      rcases List.mem_append.mp hc with h1 | h1
      · exact hall c h1
      · rw [List.eq_of_mem_replicate h1]; decide
    rw [hnil, dropWhile_all_space _ hall2]
  · rw [dropWhile_append_of_ne_nil s _ hnil, List.reverse_append,
      List.reverse_replicate, dropWhile_replicate_space]

theorem stripChars_no_space (l : List Char)
    (h : ∀ c ∈ l, isSpaceC c = false) : stripChars l = l := by
  have h1 : List.dropWhile isSpaceC l = l := by
    cases l with
    | nil => rfl
    | cons c cs => exact List.dropWhile_cons_of_neg (by
        simp [h c (List.mem_cons_self _ _)])
  rw [stripChars, h1]
  have h2 : List.dropWhile isSpaceC l.reverse = l.reverse := by
    cases hrev : l.reverse with
    | nil => rfl
    | cons c cs =>
      apply List.dropWhile_cons_of_neg
      have : c ∈ l := by
        rw [← List.mem_reverse, hrev]
        exact List.mem_cons_self _ _
      simp [h c this]
  rw [h2, List.reverse_reverse]

theorem splitSep_renderDate (d m y : Nat) :
    splitSep (renderDate d m y)
      = [natDigits d, natDigits m, natDigits y] := by
  rw [renderDate, splitSep_append_sep _ _ (natDigits_no_sep d),
    splitSep_append_sep _ _ (natDigits_no_sep m),
    splitSep_no_sep _ (natDigits_no_sep y)]

theorem renderDate_no_space (d m y : Nat) :
    ∀ c ∈ renderDate d m y, isSpaceC c = false := by
  intro c hc
  rw [renderDate] at hc
  rcases List.mem_append.mp hc with h1 | h1
  · exact natDigits_no_space d c h1
  · rcases List.mem_cons.mp h1 with h2 | h2
    · rw [h2]; decide
    · rcases List.mem_append.mp h2 with h3 | h3
      · exact natDigits_no_space m c h3
      · rcases List.mem_cons.mp h3 with h4 | h4
        · rw [h4]; decide
        · exact natDigits_no_space y c h4

theorem parseDate_renderDate (d m y : Nat)
    (hd1 : 1 ≤ d) (hd2 : d ≤ 31) (hm1 : 1 ≤ m) (hm2 : m ≤ 12) :
    parseDateDayFirst (renderDate d m y)
      = some (y * 10000 + m * 100 + d) := by
  rw [parseDateDayFirst, stripChars_no_space _ (renderDate_no_space d m y),
    splitSep_renderDate]
  dsimp only
  rw [parseNat_natDigits, parseNat_natDigits, parseNat_natDigits]
  dsimp only
  rw [if_pos ⟨hd1, hd2, hm1, hm2⟩]

/-- C9: the loader's whitespace trimming and day-first parsing: (a)
padding a date string with spaces never changes the parse (trimming
happens before parsing); (b) padding the column headers never changes a
column lookup (headers are stripped); (c) an ambiguous `d-m-y` date
string (both leading components at most 12) is read day-first, so the
derived year is the third component and the derived month is the SECOND
component, never the first; (d) every loaded observation derives its
year/month columns from the parsed date. -/
theorem loader_trim_dayfirst (d m y a b : Nat)
    (region area : String) (rate employed part : ℚ)
    (hd1 : 1 ≤ d) (hd2 : d ≤ 12) (hm1 : 1 ≤ m) (hm2 : m ≤ 12) :
    (∀ s : List Char,
      parseDateDayFirst (List.replicate a ' ' ++ s ++ List.replicate b ' ')
        = parseDateDayFirst s) ∧
    (∀ hs : List (List Char), ∀ name : List Char,
      findCol (hs.map (fun h0 => List.replicate a ' ' ++ h0
          ++ List.replicate b ' ')) name = findCol hs name) ∧
    loadRow ⟨renderDate d m y, region, area, rate, employed, part⟩
      = some ⟨y * 10000 + m * 100 + d, region, area, rate, employed, part,
          y, m⟩ ∧
    (∀ rr : RawRow, ∀ o : Obs, loadRow rr = some o →
      o.year = o.date / 10000 ∧ o.month = o.date / 100 % 100) := by
  refine ⟨?_, ?_, ?_, ?_⟩
  · intro s
    rw [parseDateDayFirst, parseDateDayFirst, stripChars_pad]
  · intro hs name
    rw [findCol, findCol, List.map_map]
    congr 1
    apply List.map_congr_left
    intro h0 _
    simp only [Function.comp_apply]
    exact stripChars_pad a b h0
  · rw [loadRow]
    dsimp only
    rw [parseDate_renderDate d m y hd1 (by omega) hm1 hm2]
    dsimp only
    have hyear : (y * 10000 + m * 100 + d) / 10000 = y := by omega
    have hmonth : (y * 10000 + m * 100 + d) / 100 % 100 = m := by omega
    rw [hyear, hmonth]
  · intro rr o hload
    rw [loadRow] at hload
    cases hparse : parseDateDayFirst rr.dateStr with
    | none => rw [hparse] at hload; cases hload
    | some dd =>
      rw [hparse] at hload
      dsimp only at hload
      injection hload with hload
      rw [← hload]
      exact ⟨rfl, rfl⟩

/-- Witness for `loader_trim_dayfirst`: the padded ambiguous string
` 3-4-2020 ` parses like its stripped form, and loads with year 2020
and month 4 (the second component). -/
theorem loader_trim_dayfirst_witness :
    parseDateDayFirst (List.replicate 2 ' ' ++ renderDate 3 4 2020
        ++ List.replicate 1 ' ')
      = parseDateDayFirst (renderDate 3 4 2020) ∧
    loadRow ⟨renderDate 3 4 2020, "A", "Rural", 10, 100, 40⟩
      = some ⟨20200403, "A", "Rural", 10, 100, 40, 2020, 4⟩ := by
  have h := loader_trim_dayfirst 3 4 2020 2 1 "A" "Rural" 10 100 40
    (by norm_num) (by norm_num) (by norm_num) (by norm_num)
  refine ⟨h.1 (renderDate 3 4 2020), ?_⟩
  have h3 := h.2.2.1
  norm_num at h3
  exact h3
